import Mathlib

/-!
Verification development for the cyclejs-sm repository (file
`src/run/src/index.ts`), a circular dependency-resolution and replication
engine: proxy placeholder creation (`makeSinkProxies`), driver invocation and
tagging (`callDrivers`), the buffered replication protocol (`replicateMany`),
disposal (`disposeSources` / `disposeReplication`) and setup validation
(`setup`, `isObjectEmpty`).

Modelling conventions:
* Driver names are strings (JavaScript object keys).
* The low-level stream primitive (xstream) is an excluded external
  collaborator.  A sink stream is therefore embedded as the sequence of
  events it delivers to its single replication subscriber, split at the
  moment `replicateMany` swaps the forwarding handlers: events delivered
  while the replicator still buffers (`pre`), events delivered after the
  swap (`post`), and events delivered after disposal.  That an unsubscribed
  listener receives nothing is part of the stream primitive contract and is
  embedded as the `subscribed` flag of the replication state.
* Mutable JavaScript state (the per-name buffers `_n`/`_e`, the handler
  swap, the subscription) is embedded as explicit state passed through a
  step function; the observable behaviour is the list of injections
  performed on the proxy (`ProxyOp`) and on the console (`LogTarget`).
-/

/-- Driver / sink names: JavaScript object keys. -/
abbrev Name := String

/-- An error value pushed through a sink.  JavaScript errors may carry a
`stack` property (`err.stack`); `none` embeds an absent property and the
empty string embeds a present-but-falsy one, matching the truthiness test
in `logToConsoleError` (`err.stack || err`). -/
structure ErrVal where
  stack : Option String
  code : Nat
deriving DecidableEq

/-- One event delivered by a real sink stream to its replication
subscriber (the replicator's `next` / `error` / `complete` handlers). -/
inductive SinkEvent where
  | next (x : Nat)
  | error (err : ErrVal)
  | complete
deriving DecidableEq

/-- One imperative injection performed on a sink proxy: `listener._n(x)`,
`listener._e(err)` or `listener._c()` in the source. -/
inductive ProxyOp where
  | next (x : Nat)
  | error (err : ErrVal)
  | complete
deriving DecidableEq

/-- What `logToConsoleError` hands to the console: `err.stack || err`. -/
inductive LogTarget where
  | stackStr (s : String)
  | errVal (err : ErrVal)
deriving DecidableEq

/-- Availability of the console methods probed by `logToConsoleError`:
`hasError` embeds `console && console.error` being truthy, `hasLog` embeds
`console && console.log` being truthy. -/
structure ConsoleCap where
  hasError : Bool
  hasLog : Bool
deriving DecidableEq

/-- The value logged by `logToConsoleError`: `const target = err.stack || err`. -/
def logTargetOf (err : ErrVal) : LogTarget :=
  match err.stack with
  | some s => if s = "" then LogTarget.errVal err else LogTarget.stackStr s
  | none => LogTarget.errVal err

/-- Embeds `logToConsoleError` (src/run/src/index.ts lines 65-72): the
target is written through `console.error` if available, else through
`console.log` if available, else dropped.  The observable behaviour is the
list of targets reaching the console. -/
def logToConsoleError (c : ConsoleCap) (err : ErrVal) : List LogTarget :=
  if c.hasError then [logTargetOf err]
  else if c.hasLog then [logTargetOf err]
  else []

/-- The per-name replication buffer `buffers[name] = {_n: [], _e: []}`
(src/run/src/index.ts line 144). -/
structure ReplBuffer where
  n : List Nat
  e : List ErrVal
deriving DecidableEq

/-- Per-name replication state: whether the subscription to the real sink
is still active, whether the forwarding handlers have been swapped from
"append to buffer" to "write directly to the proxy" (lines 173-178), and
the buffer contents. -/
structure ReplState where
  subscribed : Bool
  swapped : Bool
  buf : ReplBuffer
deriving DecidableEq

/-- State right after `xs.fromObservable(sinks[name]).subscribe(replicators[name])`
(line 157): subscribed, still buffering, empty buffers. -/
def initRepl : ReplState := ⟨true, false, ⟨[], []⟩⟩

/-- The atomic actions the engine performs on one name's replication state:
delivery of a sink event to the replicator, the flush-and-swap step of
`replicateMany` (lines 159-179), `subscription.unsubscribe()` (line 183)
and `sinkProxies[name]._c()` (line 184). -/
inductive RunAction where
  | emit (ev : SinkEvent)
  | swap
  | unsub
  | completeProxy

/-- One step of the per-name replication protocol, returning the updated
state, the injections performed on the proxy and the console writes.

* `emit` before the swap runs the buffering replicator (lines 149-151):
  `next: x => buffers[name]._n.push(x)`, `error: err => buffers[name]._e.push(err)`,
  `complete: () => {}`.
* `emit` after the swap runs the swapped handlers (lines 166-167):
  `next = x => listener._n(x)`,
  `error = err => { logToConsoleError(err); listener._e(err); }`;
  the `complete` handler is never swapped and stays a no-op.
* `emit` on an unsubscribed state delivers nothing (stream primitive
  contract after `unsubscribe()`).
* `swap` flushes `buffers[name]._n` then `buffers[name]._e` through the
  direct handlers (lines 171-172), installs the direct handlers and
  releases the buffers (line 180).
* `unsub` deactivates the subscription; `completeProxy` injects the
  completion signal into the proxy. -/
def stepAction (c : ConsoleCap) (st : ReplState) (a : RunAction) :
    ReplState × List ProxyOp × List LogTarget :=
  match a with
  | RunAction.emit ev =>
    if st.subscribed then
      if st.swapped then
        match ev with
        | SinkEvent.next x => (st, [ProxyOp.next x], [])
        | SinkEvent.error err => (st, [ProxyOp.error err], logToConsoleError c err)
        | SinkEvent.complete => (st, [], [])
      else
        match ev with
        | SinkEvent.next x =>
            ({ st with buf := { st.buf with n := st.buf.n ++ [x] } }, [], [])
        | SinkEvent.error err =>
            ({ st with buf := { st.buf with e := st.buf.e ++ [err] } }, [], [])
        | SinkEvent.complete => (st, [], [])
    else (st, [], [])
  | RunAction.swap =>
    (⟨st.subscribed, true, ⟨[], []⟩⟩,
     st.buf.n.map ProxyOp.next ++ st.buf.e.map ProxyOp.error,
     (st.buf.e.map (logToConsoleError c)).flatten)
  | RunAction.unsub => (⟨false, st.swapped, st.buf⟩, [], [])
  | RunAction.completeProxy => (st, [ProxyOp.complete], [])

/-- Runs a list of actions from a state, concatenating the proxy
injections and console writes in execution order. -/
def execList (c : ConsoleCap) (st : ReplState) :
    List RunAction → ReplState × List ProxyOp × List LogTarget
  | [] => (st, [], [])
  | a :: rest =>
    let r₁ := stepAction c st a
    let r₂ := execList c r₁.1 rest
    (r₂.1, r₁.2.1 ++ r₂.2.1, r₁.2.2 ++ r₂.2.2)

/-- The next-values carried by a list of sink events, in order. -/
def eventNexts (evs : List SinkEvent) : List Nat :=
  evs.filterMap (fun ev => match ev with
    | SinkEvent.next x => some x
    | _ => none)

/-- The error values carried by a list of sink events, in order. -/
def eventErrors (evs : List SinkEvent) : List ErrVal :=
  evs.filterMap (fun ev => match ev with
    | SinkEvent.error err => some err
    | _ => none)

/-- The next-values injected into a proxy, in order. -/
def opNexts (ops : List ProxyOp) : List Nat :=
  ops.filterMap (fun o => match o with
    | ProxyOp.next x => some x
    | _ => none)

/-- The error values injected into a proxy, in order. -/
def opErrors (ops : List ProxyOp) : List ErrVal :=
  ops.filterMap (fun o => match o with
    | ProxyOp.error err => some err
    | _ => none)

/-- Proxy injections produced by the swapped (direct) handlers for a list
of sink events: next and error pass through, complete is a no-op. -/
def directOps (evs : List SinkEvent) : List ProxyOp :=
  evs.filterMap (fun ev => match ev with
    | SinkEvent.next x => some (ProxyOp.next x)
    | SinkEvent.error err => some (ProxyOp.error err)
    | SinkEvent.complete => none)

/-- Console writes produced by the swapped handlers for a list of sink
events: one `logToConsoleError` call per error event. -/
def directLogs (c : ConsoleCap) (evs : List SinkEvent) : List LogTarget :=
  ((eventErrors evs).map (logToConsoleError c)).flatten

/-- A real sink stream, embedded as the events it delivers to its
replication subscriber: `pre` are the events delivered while the
replicator still buffers (including any emission replayed or produced
synchronously at subscription time, hence emissions made during `main`'s
invocation that the sink stream replays), `post` are the events delivered
after `replicateMany` swaps the handlers. -/
structure SinkSpec where
  pre : List SinkEvent
  post : List SinkEvent
deriving DecidableEq

/-- The ordered actions one replicated name undergoes in `replicateMany`
(src/run/src/index.ts lines 136-186): subscription-phase deliveries, the
single flush-and-swap, direct-phase deliveries, and — when the dispose
function returned by `run()` is executed — `unsubscribe()` followed by
`sinkProxies[name]._c()` followed by any events the sink still emits
(delivered to an unsubscribed listener). -/
def runPlan (spec : SinkSpec) (disposed : Bool) (late : List SinkEvent) :
    List RunAction :=
  spec.pre.map RunAction.emit ++ [RunAction.swap] ++ spec.post.map RunAction.emit ++
    (if disposed then
      RunAction.unsub :: RunAction.completeProxy :: late.map RunAction.emit
    else [])

/-- All proxy injections one replicated name performs. -/
def replicateOps (c : ConsoleCap) (spec : SinkSpec) (disposed : Bool)
    (late : List SinkEvent) : List ProxyOp :=
  (execList c initRepl (runPlan spec disposed late)).2.1

/-- All console writes one replicated name performs. -/
def replicateLogs (c : ConsoleCap) (spec : SinkSpec) (disposed : Bool)
    (late : List SinkEvent) : List LogTarget :=
  (execList c initRepl (runPlan spec disposed late)).2.2

/-- The names `replicateMany` actually wires:
`Object.keys(sinks).filter(name => !!sinkProxies[name])` (line 139).
A proxy object is always truthy, so the filter is membership among the
proxy names. -/
def sinkNames (sinks : List (Name × SinkSpec)) (proxyNames : List Name) :
    List Name :=
  (sinks.map Prod.fst).filter (fun name => decide (name ∈ proxyNames))

/-- Per-proxy injection trace of `replicateMany`: a name is wired exactly
when it is a key of `sinks` and has a proxy; unwired names receive no
injection at all. -/
def replicateManyOps (c : ConsoleCap) (sinks : List (Name × SinkSpec))
    (proxyNames : List Name) (disposed : Bool) (late : Name → List SinkEvent)
    (name : Name) : List ProxyOp :=
  match sinks.lookup name with
  | some spec =>
    if name ∈ proxyNames then replicateOps c spec disposed (late name) else []
  | none => []

/-- Per-name console trace of `replicateMany`. -/
def replicateManyLogs (c : ConsoleCap) (sinks : List (Name × SinkSpec))
    (proxyNames : List Name) (disposed : Bool) (late : Name → List SinkEvent)
    (name : Name) : List LogTarget :=
  match sinks.lookup name with
  | some spec =>
    if name ∈ proxyNames then replicateLogs c spec disposed (late name) else []
  | none => []

/-- A source as seen by `disposeSources` (lines 188-194): whether the
value itself is truthy (`sources[k]`) and whether its `dispose` member is
truthy (`(sources[k] as any).dispose`). -/
structure SourceRec where
  truthy : Bool
  disposeTruthy : Bool
deriving DecidableEq

/-- One step of the dispose function returned by `run()`
(lines 256-259 plus 182-185). -/
inductive DisposeAction where
  | sourceDispose (name : Name)
  | unsubscribeSink (name : Name)
  | completeProxy (name : Name)
deriving DecidableEq

/-- Embeds `disposeSources` (lines 188-194): calls `dispose()` on every
own entry whose value and `dispose` member are truthy, in key order. -/
def disposeSourcesTrace (sources : List (Name × SourceRec)) :
    List DisposeAction :=
  sources.filterMap (fun p =>
    if p.2.truthy && p.2.disposeTruthy then some (DisposeAction.sourceDispose p.1)
    else none)

/-- Embeds `disposeReplication` (lines 182-185): first
`subscriptions.forEach(s => s.unsubscribe())` — the subscriptions were
created in `sinkNames` order (line 157) — then
`sinkNames.forEach(name => sinkProxies[name]._c())`. -/
def disposeReplicationTrace (sinks : List (Name × SinkSpec))
    (proxyNames : List Name) : List DisposeAction :=
  (sinkNames sinks proxyNames).map DisposeAction.unsubscribeSink ++
    (sinkNames sinks proxyNames).map DisposeAction.completeProxy

/-- Embeds the dispose function returned by `run()` (lines 256-259):
`disposeSources(sources); disposeReplication();`. -/
def disposeTrace (sources : List (Name × SourceRec))
    (sinks : List (Name × SinkSpec)) (proxyNames : List Name) :
    List DisposeAction :=
  disposeSourcesTrace sources ++ disposeReplicationTrace sinks proxyNames

/-- A value held by an object property in the source model: the
`_isCycleSource` tag holds the origin driver name; anything else a driver
put there is opaque. -/
inductive PropVal where
  | strv (s : String)
  | otherv (id : Nat)
deriving DecidableEq

/-- A JavaScript property slot: its value and the `enumerable` /
`writable` attributes of its property descriptor. -/
structure PropAttrs where
  value : PropVal
  enumerable : Bool
  writable : Bool
deriving DecidableEq

/-- A structured JavaScript object: its own properties in insertion
order. -/
structure JSObject where
  props : List (String × PropAttrs)
deriving DecidableEq

/-- A value returned by a driver invocation. `primv` carries its `typeof`
string (for example `"number"`, `"string"`, `"function"`); `obj` is a
structured object (`typeof` `"object"`, truthy); `nullv` has `typeof`
`"object"` but is falsy. -/
inductive SourceVal where
  | undef
  | nullv
  | primv (typeName : String) (id : Nat)
  | obj (o : JSObject)
deriving DecidableEq

/-- JavaScript `typeof` on a driver result. -/
def srcTypeof : SourceVal → String
  | SourceVal.undef => "undefined"
  | SourceVal.nullv => "object"
  | SourceVal.primv typeName _ => typeName
  | SourceVal.obj _ => "object"

/-- JavaScript truthiness of a driver result as used by the guard
`sources[name] && typeof sources[name] === 'object'` (line 93).  A
primitive's truthiness only matters when its `typeof` is `"object"`,
which no primitive has, so embedding primitives as truthy is exact for
that guard. -/
def srcTruthy : SourceVal → Bool
  | SourceVal.undef => false
  | SourceVal.nullv => false
  | SourceVal.primv _ _ => true
  | SourceVal.obj _ => true

/-- The property key written by `callDrivers`. -/
def isCycleSourceKey : String := "_isCycleSource"

/-- Plain JavaScript property assignment `o[key] = v`: creating a missing
property yields an enumerable, writable descriptor; an existing writable
property keeps its descriptor and changes value; an existing non-writable
property is left unchanged. -/
def objAssign (o : JSObject) (key : String) (v : PropVal) : JSObject :=
  match o.props.lookup key with
  | some attrs =>
    if attrs.writable then
      ⟨o.props.map (fun p => if p.1 = key then (p.1, ⟨v, p.2.enumerable, p.2.writable⟩) else p)⟩
    else o
  | none => ⟨o.props ++ [(key, ⟨v, true, true⟩)]⟩

/-- Embeds lines 93-95 of `callDrivers`: if the driver result is truthy
and `typeof` `"object"`, assign `_isCycleSource = name` on it; otherwise
leave it untouched. -/
def tagSource (name : Name) (v : SourceVal) : SourceVal :=
  if srcTruthy v && (srcTypeof v == "object") then
    match v with
    | SourceVal.obj o => SourceVal.obj (objAssign o isCycleSourceKey (PropVal.strv name))
    | w => w
  else v

/-- A proxy placeholder: `xs.createWithMemory()` allocates a fresh
MemoryStream per name; the model tracks allocation identity. -/
abbrev ProxyId := Nat

/-- A driver function: receives its sink proxy and its name, returns a
source value (`drivers[name](sinkProxies[name], name)`, line 92). -/
abbrev DriverFn := Option ProxyId → Name → SourceVal

/-- Embeds `makeSinkProxies` (lines 74-84): one fresh MemoryStream per
own key of the driver registry, in key order; freshness is embedded by
numbering the allocations. -/
def makeSinkProxies (drivers : List (Name × DriverFn)) : List (Name × ProxyId) :=
  drivers.enum.map (fun p => (p.2.1, p.1))

/-- Embeds `callDrivers` (lines 86-99): for each own key of the registry,
invoke the driver with its proxy and name, then tag structured-object
results with the origin name. -/
def callDrivers (drivers : List (Name × DriverFn))
    (sinkProxies : List (Name × ProxyId)) : List (Name × SourceVal) :=
  drivers.map (fun p => (p.1, tagSource p.1 (p.2 (sinkProxies.lookup p.1) p.1)))

/-- A JavaScript argument as inspected by the validation at the top of
`setup` (lines 231-242): only its `typeof` shape, null-ness and own
enumerable keys matter there. -/
inductive JSArg where
  | undef
  | nullv
  | boolv (b : Bool)
  | numv (n : Int)
  | strv (s : String)
  | funcv (id : Nat)
  | objv (keys : List String)
deriving DecidableEq

/-- JavaScript `typeof` on a setup argument (`typeof null` is
`"object"`). -/
def jsTypeof : JSArg → String
  | JSArg.undef => "undefined"
  | JSArg.nullv => "object"
  | JSArg.boolv _ => "boolean"
  | JSArg.numv _ => "number"
  | JSArg.strv _ => "string"
  | JSArg.funcv _ => "function"
  | JSArg.objv _ => "object"

/-- `Object.keys`: own enumerable keys of an object, index keys of a
string, empty for other primitives.  `setup` only reaches this after the
non-null-object check. -/
def jsOwnKeys : JSArg → List String
  | JSArg.objv keys => keys
  | JSArg.strv s => (List.range s.length).map (fun i => toString i)
  | _ => []

/-- Embeds `isObjectEmpty` (lines 196-198): `Object.keys(obj).length === 0`. -/
def isObjectEmpty (arg : JSArg) : Bool :=
  (jsOwnKeys arg).length == 0

/-- Embeds the three validation checks at the top of `setup`
(lines 231-242), returning the thrown message if any check fails:
`typeof main !== 'function'`, then
`typeof drivers !== 'object' || drivers === null`, then
`isObjectEmpty(drivers)`. -/
def setupValidate (main drivers : JSArg) : Option String :=
  if jsTypeof main ≠ "function" then
    some "First argument given to Cycle must be the main function."
  else if jsTypeof drivers ≠ "object" ∨ drivers = JSArg.nullv then
    some "Second argument given to Cycle must be an object with driver functions as properties."
  else if isObjectEmpty drivers then
    some "Second argument given to Cycle must be an object with at least one driver function declared as a property."
  else none

/-- Embeds the construction prefix of `setup` (lines 231-246): a thrown
validation error aborts before `makeSinkProxies` and `callDrivers` run;
otherwise proxies are made and drivers invoked.  `reg` is the registry
content corresponding to the `drivers` argument. -/
def setupChecked (main drivers : JSArg) (reg : List (Name × DriverFn)) :
    Except String (List (Name × ProxyId) × List (Name × SourceVal)) :=
  match setupValidate main drivers with
  | some msg => Except.error msg
  | none =>
    let sinkProxies := makeSinkProxies reg
    let sources := callDrivers reg sinkProxies
    Except.ok (sinkProxies, sources)

/-- The `window.Cyclejs` object: its `sinks` property and (abstractly)
whatever other properties it already carried, which the assignment on
line 251 preserves. -/
structure CyclejsObj where
  sinksProp : Option (List (Name × SinkSpec))
  otherProps : Nat
deriving DecidableEq

/-- The part of the global window the code touches: the `Cyclejs`
property, `none` when absent or falsy. -/
structure WindowState where
  cyclejs : Option CyclejsObj
deriving DecidableEq

/-- Embeds lines 249-252 of `setup`: when a global window exists,
`window.Cyclejs = window.Cyclejs || {}` then
`window.Cyclejs.sinks = sinks`; when `typeof window === 'undefined'`
nothing happens. -/
def setupWindowEffect (w : Option WindowState)
    (sinks : List (Name × SinkSpec)) : Option WindowState :=
  match w with
  | none => none
  | some ws =>
    let cy :=
      match ws.cyclejs with
      | some c => c
      | none => ({ sinksProp := none, otherProps := 0 } : CyclejsObj)
    some ⟨some { cy with sinksProp := some sinks }⟩

/-- The value `setup` returns, plus the window state after its side
effect. -/
structure ProgramModel where
  sources : List (Name × SourceVal)
  sinks : List (Name × SinkSpec)
  windowAfter : Option WindowState

/-- Embeds the post-validation body of `setup` (lines 244-261):
`makeSinkProxies`, `callDrivers`, `adaptSources` (the SourceNormalizer is
an external adapter; it is passed in abstractly as `adaptFn`), `main`, and
the window side effect.  The `run` closure itself is embedded by
`replicateManyOps` / `disposeTrace`. -/
def setupFull (adaptFn : List (Name × SourceVal) → List (Name × SourceVal))
    (mainFn : List (Name × SourceVal) → List (Name × SinkSpec))
    (reg : List (Name × DriverFn)) (w : Option WindowState) : ProgramModel :=
  let sinkProxies := makeSinkProxies reg
  let sources := callDrivers reg sinkProxies
  let adaptedSources := adaptFn sources
  let sinks := mainFn adaptedSources
  { sources := adaptedSources, sinks := sinks,
    windowAfter := setupWindowEffect w sinks }

/-! ## Helper lemmas about the per-name replication run -/

theorem execList_append (c : ConsoleCap) (st : ReplState) (l₁ l₂ : List RunAction) :
    execList c st (l₁ ++ l₂) =
      ((execList c (execList c st l₁).1 l₂).1,
       (execList c st l₁).2.1 ++ (execList c (execList c st l₁).1 l₂).2.1,
       (execList c st l₁).2.2 ++ (execList c (execList c st l₁).1 l₂).2.2) := by
  induction l₁ generalizing st with
  | nil => simp [execList]
  | cons a rest ih => simp [execList, ih, List.append_assoc]

theorem execList_emits_buffering (c : ConsoleCap) (evs : List SinkEvent) (b : ReplBuffer) :
    execList c ⟨true, false, b⟩ (evs.map RunAction.emit) =
      (⟨true, false, ⟨b.n ++ eventNexts evs, b.e ++ eventErrors evs⟩⟩, [], []) := by
  induction evs generalizing b with
  | nil => simp [execList, eventNexts, eventErrors]
  | cons ev rest ih =>
    cases ev <;>
      simp [execList, stepAction, eventNexts, eventErrors, ih, List.append_assoc]

theorem execList_emits_direct (c : ConsoleCap) (evs : List SinkEvent) (b : ReplBuffer) :
    execList c ⟨true, true, b⟩ (evs.map RunAction.emit) =
      (⟨true, true, b⟩, directOps evs, directLogs c evs) := by
  induction evs with
  | nil => simp [execList, directOps, directLogs, eventErrors]
  | cons ev rest ih =>
    cases ev <;>
      simp [execList, stepAction, directOps, directLogs, eventErrors, ih]

theorem execList_emits_unsub (c : ConsoleCap) (evs : List SinkEvent)
    (sw : Bool) (b : ReplBuffer) :
    execList c ⟨false, sw, b⟩ (evs.map RunAction.emit) =
      (⟨false, sw, b⟩, [], []) := by
  induction evs with
  | nil => simp [execList]
  | cons ev rest ih => simp [execList, stepAction, ih]

theorem execList_runPlan (c : ConsoleCap) (spec : SinkSpec) (disposed : Bool)
    (late : List SinkEvent) :
    execList c initRepl (runPlan spec disposed late) =
      ((if disposed then (⟨false, true, ⟨[], []⟩⟩ : ReplState)
        else ⟨true, true, ⟨[], []⟩⟩),
       (eventNexts spec.pre).map ProxyOp.next ++
         ((eventErrors spec.pre).map ProxyOp.error ++
           (directOps spec.post ++ (if disposed then [ProxyOp.complete] else []))),
       ((eventErrors spec.pre).map (logToConsoleError c)).flatten ++
         directLogs c spec.post) := by
  cases disposed <;>
    simp [runPlan, execList_append, initRepl, execList_emits_buffering,
      execList, stepAction, execList_emits_direct, execList_emits_unsub,
      List.append_assoc]

theorem replicateOps_closed (c : ConsoleCap) (spec : SinkSpec) (disposed : Bool)
    (late : List SinkEvent) :
    replicateOps c spec disposed late =
      (eventNexts spec.pre).map ProxyOp.next ++
        ((eventErrors spec.pre).map ProxyOp.error ++
          (directOps spec.post ++ (if disposed then [ProxyOp.complete] else []))) := by
  simp [replicateOps, execList_runPlan]

theorem replicateLogs_closed (c : ConsoleCap) (spec : SinkSpec) (disposed : Bool)
    (late : List SinkEvent) :
    replicateLogs c spec disposed late =
      ((eventErrors spec.pre).map (logToConsoleError c)).flatten ++
        directLogs c spec.post := by
  simp [replicateLogs, execList_runPlan]

theorem eventNexts_append (l₁ l₂ : List SinkEvent) :
    eventNexts (l₁ ++ l₂) = eventNexts l₁ ++ eventNexts l₂ := by
  simp [eventNexts]

theorem eventErrors_append (l₁ l₂ : List SinkEvent) :
    eventErrors (l₁ ++ l₂) = eventErrors l₁ ++ eventErrors l₂ := by
  simp [eventErrors]

theorem opNexts_append (l₁ l₂ : List ProxyOp) :
    opNexts (l₁ ++ l₂) = opNexts l₁ ++ opNexts l₂ := by
  simp [opNexts]

theorem opErrors_append (l₁ l₂ : List ProxyOp) :
    opErrors (l₁ ++ l₂) = opErrors l₁ ++ opErrors l₂ := by
  simp [opErrors]

theorem opNexts_map_next (xs : List Nat) : opNexts (xs.map ProxyOp.next) = xs := by
  induction xs with
  | nil => rfl
  | cons x rest ih => simp [opNexts] at ih ⊢; exact ih

theorem opNexts_map_error (es : List ErrVal) :
    opNexts (es.map ProxyOp.error) = [] := by
  induction es with
  | nil => rfl
  | cons e rest ih => simp [opNexts] at ih ⊢

theorem opErrors_map_next (xs : List Nat) :
    opErrors (xs.map ProxyOp.next) = [] := by
  induction xs with
  | nil => rfl
  | cons x rest ih => simp [opErrors] at ih ⊢

theorem opErrors_map_error (es : List ErrVal) :
    opErrors (es.map ProxyOp.error) = es := by
  induction es with
  | nil => rfl
  | cons e rest ih => simp [opErrors] at ih ⊢; exact ih

theorem opNexts_directOps (evs : List SinkEvent) :
    opNexts (directOps evs) = eventNexts evs := by
  induction evs with
  | nil => rfl
  | cons ev rest ih => cases ev <;> simp [directOps, opNexts, eventNexts] at ih ⊢ <;> try exact ih

theorem opErrors_directOps (evs : List SinkEvent) :
    opErrors (directOps evs) = eventErrors evs := by
  induction evs with
  | nil => rfl
  | cons ev rest ih => cases ev <;> simp [directOps, opErrors, eventErrors] at ih ⊢ <;> try exact ih

theorem complete_notMem_map_next (xs : List Nat) :
    ProxyOp.complete ∉ xs.map ProxyOp.next := by
  simp

theorem complete_notMem_map_error (es : List ErrVal) :
    ProxyOp.complete ∉ es.map ProxyOp.error := by
  simp

theorem complete_notMem_directOps (evs : List SinkEvent) :
    ProxyOp.complete ∉ directOps evs := by
  induction evs with
  | nil => simp [directOps]
  | cons ev rest ih => cases ev <;> simp [directOps] at ih ⊢ <;> exact ih

theorem opNexts_complete_singleton : opNexts [ProxyOp.complete] = [] := rfl

theorem opErrors_complete_singleton : opErrors [ProxyOp.complete] = [] := rfl

theorem replicateManyOps_wired (c : ConsoleCap) (sinks : List (Name × SinkSpec))
    (px : List Name) (name : Name) (spec : SinkSpec) (disposed : Bool)
    (late : Name → List SinkEvent)
    (hs : sinks.lookup name = some spec) (hp : name ∈ px) :
    replicateManyOps c sinks px disposed late name =
      replicateOps c spec disposed (late name) := by
  simp [replicateManyOps, hs, hp]

theorem replicateManyLogs_wired (c : ConsoleCap) (sinks : List (Name × SinkSpec))
    (px : List Name) (name : Name) (spec : SinkSpec) (disposed : Bool)
    (late : Name → List SinkEvent)
    (hs : sinks.lookup name = some spec) (hp : name ∈ px) :
    replicateManyLogs c sinks px disposed late name =
      replicateLogs c spec disposed (late name) := by
  simp [replicateManyLogs, hs, hp]

/-! ## C1 -/

/-- C1: for every name present in both the sink collection and the proxy
collection, the sequence of next-values injected into the proxy equals the
sequence of next-values the sink delivered, both those buffered before the
handler swap and those emitted after it, in original arrival order; hence
each value is delivered exactly once (equal per-value counts), with no
re-delivery of flushed values. -/
theorem sink_values_delivered_in_order_once (c : ConsoleCap)
    (sinks : List (Name × SinkSpec)) (px : List Name) (name : Name)
    (spec : SinkSpec) (late : Name → List SinkEvent) (disposed : Bool)
    (hs : sinks.lookup name = some spec) (hp : name ∈ px) :
    opNexts (replicateManyOps c sinks px disposed late name) =
      eventNexts (spec.pre ++ spec.post) ∧
    ∀ x : Nat,
      (opNexts (replicateManyOps c sinks px disposed late name)).count x =
        (eventNexts (spec.pre ++ spec.post)).count x := by
  have h : opNexts (replicateManyOps c sinks px disposed late name) =
      eventNexts (spec.pre ++ spec.post) := by
    rw [replicateManyOps_wired c sinks px name spec disposed late hs hp,
      replicateOps_closed, eventNexts_append]
    cases disposed <;>
      simp [opNexts_append, opNexts_map_next, opNexts_map_error,
        opNexts_directOps, opNexts_complete_singleton]
  exact ⟨h, fun x => by rw [h]⟩

theorem sink_values_delivered_in_order_once_witness :
    opNexts (replicateManyOps ⟨true, true⟩
        [(("A" : Name), (⟨[SinkEvent.next 1], [SinkEvent.next 2]⟩ : SinkSpec))]
        [("A" : Name)] false (fun _ => []) ("A" : Name)) =
      eventNexts ([SinkEvent.next 1] ++ [SinkEvent.next 2]) :=
  (sink_values_delivered_in_order_once ⟨true, true⟩
    [(("A" : Name), (⟨[SinkEvent.next 1], [SinkEvent.next 2]⟩ : SinkSpec))]
    [("A" : Name)] ("A" : Name) ⟨[SinkEvent.next 1], [SinkEvent.next 2]⟩
    (fun _ => []) false (by decide) (by decide)).1

/-! ## C2 -/

/-- C2 (amended): for every proxy whose name is also a key of the sink
collection, a completion signal is injected exactly once if the dispose
operation runs and never otherwise — the replicator's complete handler is
a no-op, so sink completion events are never propagated; and a name with
no sink entry receives no injection at all (in particular such proxies are
never completed, even on dispose). -/
theorem proxy_completion_only_on_dispose (c : ConsoleCap)
    (sinks : List (Name × SinkSpec)) (px : List Name) (name : Name)
    (spec : SinkSpec) (late : Name → List SinkEvent) (disposed : Bool)
    (hs : sinks.lookup name = some spec) (hp : name ∈ px) :
    (replicateManyOps c sinks px disposed late name).count ProxyOp.complete =
      (if disposed then 1 else 0) ∧
    ∀ n₂ : Name, sinks.lookup n₂ = none →
      replicateManyOps c sinks px disposed late n₂ = [] := by
  constructor
  · rw [replicateManyOps_wired c sinks px name spec disposed late hs hp,
      replicateOps_closed]
    have h1 := List.count_eq_zero_of_not_mem
      (complete_notMem_map_next (eventNexts spec.pre))
    have h2 := List.count_eq_zero_of_not_mem
      (complete_notMem_map_error (eventErrors spec.pre))
    have h3 := List.count_eq_zero_of_not_mem
      (complete_notMem_directOps spec.post)
    cases disposed <;> simp [List.count_append, h1, h2, h3]
  · intro n₂ hn
    simp [replicateManyOps, hn]

theorem proxy_completion_only_on_dispose_witness :
    (replicateManyOps ⟨true, true⟩
        [(("A" : Name), (⟨[], []⟩ : SinkSpec))] [("A" : Name)] true
        (fun _ => []) ("A" : Name)).count ProxyOp.complete =
      (if true then 1 else 0) :=
  (proxy_completion_only_on_dispose ⟨true, true⟩
    [(("A" : Name), (⟨[], []⟩ : SinkSpec))] [("A" : Name)] ("A" : Name)
    ⟨[], []⟩ (fun _ => []) true (by decide) (by decide)).1

/-- C2 counterexample: the registry has drivers A and B (so proxies A and
B exist), but `main` returned a sink collection containing only A.  The
dispose operation runs (`disposed = true`), yet proxy B receives no
injection at all — in particular no completion signal — because
`disposeReplication` completes only the names of `sinkNames`
(line 184), refuting "for every proxy, a completion signal is injected
iff the dispose operation is executed". -/
theorem proxy_completion_missing_cx :
    (("B" : Name) ∈ [("A" : Name), ("B" : Name)]) ∧
    replicateManyOps ⟨true, true⟩ [(("A" : Name), (⟨[], []⟩ : SinkSpec))]
      [("A" : Name), ("B" : Name)] true (fun _ => []) ("B" : Name) = [] := by
  decide

/-! ## C3 -/

theorem setupChecked_error_iff (main drivers : JSArg) (reg : List (Name × DriverFn)) :
    (∃ msg, setupChecked main drivers reg = Except.error msg) ↔
      setupValidate main drivers ≠ none := by
  cases h : setupValidate main drivers <;> simp [setupChecked, h]

theorem setupValidate_none_iff (main drivers : JSArg) :
    setupValidate main drivers = none ↔
      (jsTypeof main = "function" ∧ jsTypeof drivers = "object" ∧
        drivers ≠ JSArg.nullv ∧ jsOwnKeys drivers ≠ []) := by
  unfold setupValidate isObjectEmpty
  split_ifs with h1 h2 h3
  · simp only [reduceCtorEq, false_iff]
    intro hc
    exact h1 hc.1
  · simp only [reduceCtorEq, false_iff]
    intro hc
    rcases h2 with h2 | h2
    · exact h2 hc.2.1
    · exact hc.2.2.1 h2
  · simp only [reduceCtorEq, false_iff]
    intro hc
    rw [Nat.beq_eq_true_eq, List.length_eq_zero] at h3
    exact hc.2.2.2 h3
  · simp only [true_iff]
    push_neg at h1 h2
    rw [Nat.beq_eq_true_eq, List.length_eq_zero] at h3
    exact ⟨h1, h2.1, h2.2, fun hk => h3 hk⟩

/-- C3: `setup` throws synchronously — before any proxy is created and
before any driver function is invoked (the `Except.error` short-circuits
the construction stage for every registry content `reg`) — exactly when
`main` is not callable, or `drivers` is not a non-null object, or
`drivers` has zero own keys; inputs passing all three checks never make
validation throw (the result is `Except.ok`). -/
theorem setup_validation_iff (main drivers : JSArg) (reg : List (Name × DriverFn)) :
    (∃ msg, setupChecked main drivers reg = Except.error msg) ↔
      ¬(jsTypeof main = "function" ∧ jsTypeof drivers = "object" ∧
        drivers ≠ JSArg.nullv ∧ jsOwnKeys drivers ≠ []) := by
  rw [setupChecked_error_iff, Ne, setupValidate_none_iff]

/-! ## C4 -/

theorem lookup_filter_ne (sinks : List (Name × SinkSpec)) (name other : Name)
    (h : other ≠ name) :
    (sinks.filter (fun p => decide (p.1 ≠ name))).lookup other =
      sinks.lookup other := by
  induction sinks with
  | nil => rfl
  | cons p rest ih =>
    by_cases hp : p.1 = name
    · have h1 : (decide (p.1 ≠ name)) = false := by simp [hp]
      have h2 : (other == p.1) = false := by
        apply beq_eq_false_iff_ne.mpr
        intro he
        exact h (he.trans hp)
      rw [List.filter_cons, h1]
      simp only [Bool.false_eq_true, if_false, ih]
      rw [show p = (p.1, p.2) from rfl, List.lookup_cons, h2]
    · have h1 : (decide (p.1 ≠ name)) = true := by simp [hp]
      rw [List.filter_cons, h1]
      simp only [if_true]
      rw [show p = (p.1, p.2) from rfl, List.lookup_cons, List.lookup_cons]
      cases hbe : (other == p.1)
      · simpa using ih
      · rfl

/-- C4: replication subscriptions exist only for sink names that also have
a proxy: a sink name with no registered driver is not among the subscribed
`sinkNames`, produces no proxy injection and no console write, and its
presence in the sink collection does not affect any other name's
replication (its values are forwarded nowhere); the embedding is a total
function, so no error is raised. -/
theorem driverless_sink_inert (c : ConsoleCap) (sinks : List (Name × SinkSpec))
    (px : List Name) (disposed : Bool) (late : Name → List SinkEvent)
    (name : Name) (hpx : name ∉ px) :
    name ∉ sinkNames sinks px ∧
    replicateManyOps c sinks px disposed late name = [] ∧
    replicateManyLogs c sinks px disposed late name = [] ∧
    ∀ other : Name, other ≠ name →
      replicateManyOps c sinks px disposed late other =
        replicateManyOps c (sinks.filter (fun p => decide (p.1 ≠ name))) px
          disposed late other := by
  refine ⟨?_, ?_, ?_, ?_⟩
  · simp [sinkNames, List.mem_filter, hpx]
  · cases hlk : sinks.lookup name with
    | none => simp [replicateManyOps, hlk]
    | some spec => simp [replicateManyOps, hlk, hpx]
  · cases hlk : sinks.lookup name with
    | none => simp [replicateManyLogs, hlk]
    | some spec => simp [replicateManyLogs, hlk, hpx]
  · intro other hne
    simp only [replicateManyOps, lookup_filter_ne sinks name other hne]

theorem driverless_sink_inert_witness :
    replicateManyOps ⟨true, true⟩
      [(("C" : Name), (⟨[SinkEvent.next 7], []⟩ : SinkSpec))] [("A" : Name)]
      false (fun _ => []) ("C" : Name) = [] :=
  (driverless_sink_inert ⟨true, true⟩
    [(("C" : Name), (⟨[SinkEvent.next 7], []⟩ : SinkSpec))] [("A" : Name)]
    false (fun _ => []) ("C" : Name) (by decide)).2.1

/-! ## C5 -/

theorem logToConsoleError_single (c : ConsoleCap)
    (hc : c.hasError = true ∨ c.hasLog = true) (err : ErrVal) :
    logToConsoleError c err = [logTargetOf err] := by
  rcases hc with h | h
  · simp [logToConsoleError, h]
  · cases he : c.hasError <;> simp [logToConsoleError, he, h]

theorem flatten_map_logToConsoleError (c : ConsoleCap)
    (hc : c.hasError = true ∨ c.hasLog = true) (es : List ErrVal) :
    ((es.map (logToConsoleError c)).flatten) = es.map logTargetOf := by
  induction es with
  | nil => rfl
  | cons e rest ih => simp [logToConsoleError_single c hc, ih]

/-- C5: for every replicated name, the error values injected into the
proxy are exactly the error values the sink delivered — buffered ones
first (flushed), later ones directly — and, whenever a console sink
exists (`console.error` or `console.log`), each of those errors is also
written to the console as `err.stack || err`; no sink error is silently
dropped. -/
theorem sink_errors_surfaced (c : ConsoleCap) (sinks : List (Name × SinkSpec))
    (px : List Name) (name : Name) (spec : SinkSpec)
    (late : Name → List SinkEvent) (disposed : Bool)
    (hs : sinks.lookup name = some spec) (hp : name ∈ px)
    (hc : c.hasError = true ∨ c.hasLog = true) :
    opErrors (replicateManyOps c sinks px disposed late name) =
      eventErrors (spec.pre ++ spec.post) ∧
    replicateManyLogs c sinks px disposed late name =
      (eventErrors (spec.pre ++ spec.post)).map logTargetOf := by
  constructor
  · rw [replicateManyOps_wired c sinks px name spec disposed late hs hp,
      replicateOps_closed, eventErrors_append]
    cases disposed <;>
      simp [opErrors_append, opErrors_map_next, opErrors_map_error,
        opErrors_directOps, opErrors_complete_singleton]
  · rw [replicateManyLogs_wired c sinks px name spec disposed late hs hp,
      replicateLogs_closed, eventErrors_append]
    simp [directLogs, flatten_map_logToConsoleError c hc, List.map_append]

theorem sink_errors_surfaced_witness :
    opErrors (replicateManyOps ⟨true, false⟩
        [(("A" : Name),
          (⟨[SinkEvent.error ⟨some "t", 3⟩], [SinkEvent.error ⟨none, 4⟩]⟩ : SinkSpec))]
        [("A" : Name)] false (fun _ => []) ("A" : Name)) =
      eventErrors ([SinkEvent.error ⟨some "t", 3⟩] ++ [SinkEvent.error ⟨none, 4⟩]) :=
  (sink_errors_surfaced ⟨true, false⟩
    [(("A" : Name),
      (⟨[SinkEvent.error ⟨some "t", 3⟩], [SinkEvent.error ⟨none, 4⟩]⟩ : SinkSpec))]
    [("A" : Name)] ("A" : Name)
    ⟨[SinkEvent.error ⟨some "t", 3⟩], [SinkEvent.error ⟨none, 4⟩]⟩
    (fun _ => []) false (by decide) (by decide) (Or.inl rfl)).1

/-! ## C6 -/

theorem mem_disposeSourcesTrace (sources : List (Name × SourceRec))
    (a : DisposeAction) (ha : a ∈ disposeSourcesTrace sources) :
    ∃ k, a = DisposeAction.sourceDispose k := by
  simp only [disposeSourcesTrace, List.mem_filterMap] at ha
  obtain ⟨p, _, he⟩ := ha
  split at he
  · exact ⟨p.1, by injection he with h2; exact h2.symm⟩
  · exact Option.noConfusion he

/-- C6 (amended): the dispose function returned by `run()` performs, in a
fixed order, first the source teardowns, then the unsubscription of every
replication subscription, then the completion of every proxy whose name is
a key of the sink collection (names with no sink entry are not completed);
and after disposal, further sink emissions (`late`) contribute nothing to
any proxy's injection trace. -/
theorem dispose_order_fixed (sources : List (Name × SourceRec))
    (sinks : List (Name × SinkSpec)) (px : List Name) (c : ConsoleCap)
    (late : Name → List SinkEvent) :
    disposeTrace sources sinks px =
      disposeSourcesTrace sources ++
        ((sinkNames sinks px).map DisposeAction.unsubscribeSink ++
          (sinkNames sinks px).map DisposeAction.completeProxy) ∧
    (∀ a ∈ disposeSourcesTrace sources, ∃ k, a = DisposeAction.sourceDispose k) ∧
    (∀ a ∈ (sinkNames sinks px).map DisposeAction.unsubscribeSink,
      ∃ k, a = DisposeAction.unsubscribeSink k) ∧
    (∀ a ∈ (sinkNames sinks px).map DisposeAction.completeProxy,
      ∃ k, a = DisposeAction.completeProxy k) ∧
    (∀ name : Name,
      DisposeAction.completeProxy name ∈ disposeTrace sources sinks px ↔
        name ∈ sinkNames sinks px) ∧
    (∀ name : Name,
      replicateManyOps c sinks px true late name =
        replicateManyOps c sinks px true (fun _ => []) name) := by
  refine ⟨by simp [disposeTrace, disposeReplicationTrace], ?_, ?_, ?_, ?_, ?_⟩
  · exact fun a ha => mem_disposeSourcesTrace sources a ha
  · intro a ha
    simp only [List.mem_map] at ha
    obtain ⟨k, _, rfl⟩ := ha
    exact ⟨k, rfl⟩
  · intro a ha
    simp only [List.mem_map] at ha
    obtain ⟨k, _, rfl⟩ := ha
    exact ⟨k, rfl⟩
  · intro name
    constructor
    · intro hmem
      simp only [disposeTrace, disposeReplicationTrace, List.mem_append] at hmem
      rcases hmem with h | h | h
      · obtain ⟨k, hk⟩ := mem_disposeSourcesTrace sources _ h
        exact absurd hk (by simp)
      · simp only [List.mem_map] at h
        obtain ⟨k, _, hk⟩ := h
        exact absurd hk (by simp)
      · simp only [List.mem_map] at h
        obtain ⟨k, hk, he⟩ := h
        injection he with h2
        exact h2 ▸ hk
    · intro hmem
      simp only [disposeTrace, disposeReplicationTrace, List.mem_append]
      exact Or.inr (Or.inr (List.mem_map.mpr ⟨name, hmem, rfl⟩))
  · intro name
    cases hlk : sinks.lookup name with
    | none => simp [replicateManyOps, hlk]
    | some spec =>
      by_cases hmem : name ∈ px
      · simp [replicateManyOps, hlk, hmem, replicateOps_closed]
      · simp [replicateManyOps, hlk, hmem]

theorem dispose_order_fixed_witness :
    DisposeAction.completeProxy ("A" : Name) ∈
      disposeTrace [] [(("A" : Name), (⟨[], []⟩ : SinkSpec))] [("A" : Name)] :=
  ((dispose_order_fixed [] [(("A" : Name), (⟨[], []⟩ : SinkSpec))]
    [("A" : Name)] ⟨true, true⟩ (fun _ => [])).2.2.2.2.1 ("A" : Name)).mpr
    (by decide)

/-- C6 counterexample: drivers A and B are registered (so proxies A and B
exist) but the sink collection only has key A; the dispose trace contains
no completion for proxy B, refuting "then it completes every proxy". -/
theorem dispose_not_all_proxies_cx :
    (("B" : Name) ∈ [("A" : Name), ("B" : Name)]) ∧
    DisposeAction.completeProxy ("B" : Name) ∉
      disposeTrace [] [(("A" : Name), (⟨[], []⟩ : SinkSpec))]
        [("A" : Name), ("B" : Name)] := by
  decide

/-! ## C7 -/

/-- C7: for every driver registry, the proxy collection and the source
collection have exactly the registry's own keys, in order (hence exactly
one entry per key, no more, no fewer), and all allocated proxy instances
are pairwise distinct, so distinct names are bound to distinct freshly
created proxies. -/
theorem proxies_and_sources_cardinality (reg : List (Name × DriverFn)) :
    (makeSinkProxies reg).map Prod.fst = reg.map Prod.fst ∧
    (callDrivers reg (makeSinkProxies reg)).map Prod.fst = reg.map Prod.fst ∧
    ((makeSinkProxies reg).map Prod.snd).Nodup := by
  refine ⟨?_, ?_, ?_⟩
  · show (reg.enum.map (fun p => (p.2.1, p.1))).map Prod.fst = reg.map Prod.fst
    rw [List.map_map]
    have h1 : (Prod.fst ∘ fun p : Nat × (Name × DriverFn) => (p.2.1, p.1)) =
        (Prod.fst ∘ Prod.snd) := rfl
    rw [h1, ← List.map_map, List.enum_map_snd]
  · rw [show callDrivers reg (makeSinkProxies reg) =
      reg.map (fun p =>
        (p.1, tagSource p.1 (p.2 ((makeSinkProxies reg).lookup p.1) p.1))) from rfl]
    rw [List.map_map]
    rfl
  · show ((reg.enum.map (fun p => (p.2.1, p.1))).map Prod.snd).Nodup
    rw [List.map_map]
    have h1 : (Prod.snd ∘ fun p : Nat × (Name × DriverFn) => (p.2.1, p.1)) =
        Prod.fst := rfl
    rw [h1, List.enum_map_fst]
    exact List.nodup_range reg.length

/-! ## C8 -/

/-- C8 counterexample: a driver returning an empty object.  `callDrivers`
attaches `_isCycleSource` with an enumerable, writable property descriptor
(plain assignment, line 94), refuting the claim that the tag is
non-enumerable and read-only. -/
theorem tag_is_enumerable_writable_cx :
    ∃ attrs : PropAttrs,
      (callDrivers [(("A" : Name), (fun _ _ => SourceVal.obj ⟨[]⟩ : DriverFn))]
          (makeSinkProxies
            [(("A" : Name), (fun _ _ => SourceVal.obj ⟨[]⟩ : DriverFn))])).lookup
          ("A" : Name) =
        some (SourceVal.obj ⟨[(isCycleSourceKey, attrs)]⟩) ∧
      attrs.enumerable = true ∧ attrs.writable = true :=
  ⟨⟨PropVal.strv ("A" : Name), true, true⟩, by decide, rfl, rfl⟩

/-- C8 (amended): for every driver result that is structurally an object
(truthy, `typeof` `"object"`), `callDrivers` attaches the origin driver
name under `_isCycleSource` as an ordinary property — enumerable and
writable, created by plain assignment — and every non-object result is
left untagged; `callDrivers` applies exactly this tagging to each
invocation result. -/
theorem tag_attached_ordinary_property (name : Name) (o : JSObject)
    (v : SourceVal) (reg : List (Name × DriverFn))
    (px : List (Name × ProxyId))
    (hfresh : o.props.lookup isCycleSourceKey = none)
    (hv : (srcTruthy v && (srcTypeof v == "object")) = false) :
    tagSource name (SourceVal.obj o) =
      SourceVal.obj
        ⟨o.props ++ [(isCycleSourceKey, ⟨PropVal.strv name, true, true⟩)]⟩ ∧
    tagSource name v = v ∧
    callDrivers reg px =
      reg.map (fun p => (p.1, tagSource p.1 (p.2 (px.lookup p.1) p.1))) := by
  refine ⟨?_, ?_, rfl⟩
  · simp [tagSource, srcTruthy, srcTypeof, objAssign, hfresh]
  · simp [tagSource, hv]

theorem tag_attached_ordinary_property_witness :
    tagSource ("A" : Name) (SourceVal.obj ⟨[]⟩) =
      SourceVal.obj
        ⟨[] ++ [(isCycleSourceKey, ⟨PropVal.strv ("A" : Name), true, true⟩)]⟩ :=
  (tag_attached_ordinary_property ("A" : Name) ⟨[]⟩ SourceVal.nullv [] []
    (by decide) (by decide)).1

/-! ## C9 -/

/-- C9: for every replicated name whose sink emits only before the handler
swap, the flush step injects all buffered next-values (in arrival order)
strictly before all buffered errors (in arrival order): the two buffers
are independent queues, so the relative order between kinds is not
preserved — witnessed by a sink that emits an error before a next-value
yet whose proxy receives the next-value first — while order within each
kind is. -/
theorem interleaved_flush_reorders (c : ConsoleCap)
    (sinks : List (Name × SinkSpec)) (px : List Name) (name : Name)
    (spec : SinkSpec) (late : Name → List SinkEvent)
    (hs : sinks.lookup name = some spec) (hp : name ∈ px)
    (hpost : spec.post = []) :
    replicateManyOps c sinks px false late name =
      (eventNexts spec.pre).map ProxyOp.next ++
        (eventErrors spec.pre).map ProxyOp.error ∧
    replicateOps c ⟨[SinkEvent.error ⟨none, 0⟩, SinkEvent.next 1], []⟩ false [] =
      [ProxyOp.next 1, ProxyOp.error ⟨none, 0⟩] := by
  constructor
  · rw [replicateManyOps_wired c sinks px name spec false late hs hp,
      replicateOps_closed, hpost]
    simp [directOps]
  · rw [replicateOps_closed]
    simp [eventNexts, eventErrors, directOps]

theorem interleaved_flush_reorders_witness :
    replicateManyOps ⟨true, true⟩
      [(("A" : Name),
        (⟨[SinkEvent.error ⟨none, 0⟩, SinkEvent.next 1], []⟩ : SinkSpec))]
      [("A" : Name)] false (fun _ => []) ("A" : Name) =
      (eventNexts [SinkEvent.error ⟨none, 0⟩, SinkEvent.next 1]).map ProxyOp.next ++
        (eventErrors [SinkEvent.error ⟨none, 0⟩, SinkEvent.next 1]).map ProxyOp.error :=
  (interleaved_flush_reorders ⟨true, true⟩
    [(("A" : Name),
      (⟨[SinkEvent.error ⟨none, 0⟩, SinkEvent.next 1], []⟩ : SinkSpec))]
    [("A" : Name)] ("A" : Name)
    ⟨[SinkEvent.error ⟨none, 0⟩, SinkEvent.next 1], []⟩ (fun _ => [])
    (by decide) (by decide) rfl).1

/-! ## C10 -/

/-- C10: whenever a global window object exists, `setup` mutates it before
returning, on every call and for every adapter, main function and
registry: `window.Cyclejs` is created if absent (other properties of an
existing `Cyclejs` object are preserved) and its `sinks` property is
overwritten with the sink collection returned by `main`; the effect is
part of `setup` itself, independent of `run()` or dispose. -/
theorem window_sinks_mutation
    (adaptFn : List (Name × SourceVal) → List (Name × SourceVal))
    (mainFn : List (Name × SourceVal) → List (Name × SinkSpec))
    (reg : List (Name × DriverFn)) (ws : WindowState) :
    ∃ cy : CyclejsObj,
      (setupFull adaptFn mainFn reg (some ws)).windowAfter = some ⟨some cy⟩ ∧
      cy.sinksProp = some ((setupFull adaptFn mainFn reg (some ws)).sinks) ∧
      cy.otherProps = (match ws.cyclejs with
        | some c0 => c0.otherProps
        | none => 0) := by
  cases hcy : ws.cyclejs with
  | none =>
    refine ⟨⟨some ((setupFull adaptFn mainFn reg (some ws)).sinks), 0⟩,
      ?_, rfl, by simp [hcy]⟩
    simp [setupFull, setupWindowEffect, hcy]
  | some c0 =>
    refine ⟨⟨some ((setupFull adaptFn mainFn reg (some ws)).sinks),
      c0.otherProps⟩, ?_, rfl, by simp [hcy]⟩
    simp [setupFull, setupWindowEffect, hcy]
